import Mathlib

/-!
Shallow embedding of `src/selection.ts` of pg-mem: the projection / filter
planning core (`buildSelection`, `Selection` and its `filter` /
`buildFilter` / `buildBinaryFilter` / `buildComparison` / `enumerate`
members).  External collaborators that are not part of that file — the
value compiler `buildValue` (`predicate.ts`), the type system
(`datatypes.ts`), `trimNullish` (`utils.ts`), the `Value.*` constructors
(`valuetypes.ts`) and the concrete filter node classes — are supplied
through an explicit environment record `Env`, or modelled from the spec
where their behaviour is needed (each such definition says so in its doc
comment).  The process-wide counter `selCnt` is threaded explicitly.
-/

/-- Scalar SQL data types: the `DataType` enum together with the
`Types.*` singleton type objects of `datatypes.ts`.  The singletons are
in one-to-one correspondence with the enum (`Types.bool.primary` is
`DataType.bool`, …), so a single inductive stands for both; `makeArray t`
is `DataType.array t`. -/
inductive DataType where
  | bool
  | int
  | text
  | timestamp
  | null
  | array (elem : DataType)
  deriving DecidableEq, Repr

/-- Runtime scalar values flowing out of `IValue.get`.  The JS `null`
(and `undefined`) result is `Option.none` at every use site. -/
inductive SqlVal where
  | vBool (b : Bool)
  | vInt (n : Int)
  | vStr (s : String)
  deriving DecidableEq, Repr

/-- An in-flight row object: the identity tag written by `setId` and
read by `getId` (`interfaces-private.ts`), plus the row's named fields. -/
structure Row where
  rowId : String
  fields : List (String × Option SqlVal)
  deriving DecidableEq, Repr

/-- The JS property read `raw[k]` on a row object. -/
def rowGet (r : Row) (k : String) : Option SqlVal :=
  match (Row.fields r).find? (fun p => p.1 == k) with
  | some p => p.2
  | none => none

/-- One key expression of a physical index, as consulted by this file:
only its `type` is ever read (`built.index.expressions[0].type`). -/
structure IndexExpr where
  type : DataType
  deriving DecidableEq, Repr

/-- The `_IIndex` metadata carried by a compiled value: its ordered key
expressions. -/
structure IndexDef where
  expressions : List IndexExpr
  deriving DecidableEq, Repr

/-- A compiled Typed Value (`IValue` of `interfaces-private.ts`):
its `id`, `type`, constancy flag, optional index metadata, and its
evaluation function; `get none` models the JS call `get(null)`. -/
structure IValue where
  id : String
  type : DataType
  isConstant : Bool
  index : Option IndexDef
  get : Option Row → Option SqlVal

/-- Modelled from the spec: `setId` of a compiled value is implemented
in `valuetypes.ts` (not under `src/`); per spec §4.1 it rebinds the
value's `id` to the given alias. -/
def IValue.setId (v : IValue) (a : String) : IValue :=
  { v with id := a }

/-- Predicate / expression AST nodes as consumed by this file: the
`binary_expr` shape `{operator, left, right}` is the only one
`buildFilter` inspects itself; every other node kind is opaque here and
is only ever handed to the external value compiler.  `other ""` stands
for a node whose dispatch tag is empty/absent (e.g. an object stripped
bare by null-stripping). -/
inductive Ast where
  | binaryExpr (operator : String) (left right : Ast)
  | other (tag : String)
  deriving DecidableEq, Repr

/-- The JS dispatch tag `filter.type`. -/
def Ast.typeTag : Ast → String
  | .binaryExpr _ _ _ => "binary_expr"
  | .other tag => tag

/-- The error taxonomy surfaced by `selection.ts`: `QueryError`,
`ColumnNotFound`, `CastError`, `NotSupported` (`interfaces.ts` /
`utils.ts`) and the bare `Error` thrown for the internal invariant
violation. -/
inductive Err where
  | queryError (msg : String)
  | columnNotFound (name : String)
  | castError (src dst : DataType)
  | notSupported (msg : String)
  | internalError (msg : String)
  deriving DecidableEq, Repr

/-- The filter-plan tree built by `buildFilter`: one constructor per
concrete node class instantiated by `selection.ts` (`EqFilter`,
`NeqFilter`, `InFilter`, `NotInFilter`, `FalseFilter`, `SeqScanFilter`,
and the `buildAndFilter` / `OrFilter` combinators), plus `self` for the
branches that return the selection itself unchanged.  The node classes
themselves are external; here a plan is the symbolic tree recording
which node was built over which compiled values. -/
inductive Plan where
  | self
  | eqFilter (onValue : IValue) (values : List IValue)
  | neqFilter (onValue : IValue) (values : List IValue)
  | inFilter (value array : IValue)
  | notInFilter (value array : IValue)
  | falseFilter
  | seqScanFilter (pred : IValue)
  | andFilter (left right : Plan)
  | orFilter (left right : Plan)

/-- The external collaborators of `selection.ts`, bundled: the value
compiler `buildValue` (with the selection receiver fixed), `convert`
and `makeArray` from the type system, `trimNullish` from `utils.ts`,
and the `Value.bool` / `Value.isNull` / `Value.in` constructors from
`valuetypes.ts`. -/
structure Env where
  buildValue : Ast → IValue
  convert : IValue → DataType → IValue
  trimNullish : Ast → Ast
  valueBool : Bool → IValue
  valueIsNull : IValue → Bool → IValue
  valueIn : IValue → IValue → Bool → IValue

/-- JS truthiness of a `scalar | null` evaluation result, as used by
`if (val)` in `buildFilter` and `if (got)` in `buildComparison`. -/
def truthy : Option SqlVal → Bool
  | none => false
  | some (.vBool b) => b
  | some (.vInt n) => decide (n ≠ 0)
  | some (.vStr s) => decide (s ≠ "")

namespace Selection

/-- `Selection.buildComparison` (selection.ts:210-238), for the
operators routed to it; `operator`, `left`, `right` are the
destructured fields of the binary-expression node, which itself is
`Ast.binaryExpr operator left right`. -/
def buildComparison (env : Env) (operator : String) (left right : Ast) :
    Except Err Plan :=
  let leftValue := env.buildValue left
  let rightValue := env.buildValue right
  if leftValue.isConstant && rightValue.isConstant then
    let global := env.buildValue (.binaryExpr operator left right)
    let got := global.get none
    if truthy got then .ok .self else .ok .falseFilter
  else if operator = "=" || operator = "!=" || operator = "<>" then
    if leftValue.index.isSome && rightValue.isConstant then
      .ok (if operator = "=" then .eqFilter leftValue [rightValue]
           else .neqFilter leftValue [rightValue])
    else if rightValue.index.isSome && leftValue.isConstant then
      .ok (if operator = "=" then .eqFilter rightValue [leftValue]
           else .neqFilter rightValue [leftValue])
    else .ok (.seqScanFilter (env.buildValue (.binaryExpr operator left right)))
  else .ok (.seqScanFilter (env.buildValue (.binaryExpr operator left right)))

mutual

/-- `Selection.buildFilter` (selection.ts:129-160).  The source checks
`built.index.expressions.length !== 1` and then reads
`expressions[0]`; matching the singleton list is the same test. -/
def buildFilter (env : Env) (filter : Ast) : Except Err Plan :=
  let built := env.buildValue filter
  match built.index with
  | some idx =>
    match idx.expressions with
    | [e] =>
      if e.type ≠ DataType.bool then
        .error (.castError e.type DataType.bool)
      else
        .ok (.eqFilter built [env.valueBool true])
    | _ => .error (.internalError "Was not expecing multiples expressions filter")
  | none =>
    if built.isConstant then
      if truthy ((env.convert built DataType.bool).get none) then
        .ok .self
      else
        .ok .falseFilter
    else
      match filter with
      | .binaryExpr operator l r => buildBinaryFilter env operator l r
      | f => .error (.notSupported ("condition " ++ Ast.typeTag f))
termination_by 2 * sizeOf filter

/-- `Selection.buildBinaryFilter` (selection.ts:162-208); `operator`,
`left`, `right` are the destructured fields of the node. -/
def buildBinaryFilter (env : Env) (operator : String) (left right : Ast) :
    Except Err Plan :=
  match operator with
  | "=" | ">" | "<" | "<=" | ">=" =>
    buildComparison env operator left right
  | "AND" | "OR" =>
    match buildFilter env left with
    | .error e => .error e
    | .ok leftFilter =>
      match buildFilter env right with
      | .error e => .error e
      | .ok rightFilter =>
        .ok (if operator = "AND" then .andFilter leftFilter rightFilter
             else .orFilter leftFilter rightFilter)
  | "IS" | "IS NOT" =>
    let rightValue := env.buildValue right
    if rightValue.type ≠ DataType.null then
      .error (.notSupported "only IS NULL is supported")
    else
      let leftValue := env.buildValue left
      if leftValue.index.isSome then
        .ok (if operator = "IS" then .eqFilter leftValue [rightValue]
             else .neqFilter leftValue [rightValue])
      else
        .ok (.seqScanFilter (env.valueIsNull leftValue (operator = "IS")))
  | "IN" | "NOT IN" =>
    let value := env.buildValue left
    let array := env.convert (env.buildValue right) (DataType.array value.type)
    if array.isConstant &&
        Option.any (fun idx => idx.expressions.length == 1) value.index then
      .ok (if operator = "IN" then .inFilter value array
           else .notInFilter value array)
    else
      .ok (.seqScanFilter (env.valueIn value array (operator = "IN")))
  | _ => .ok (.seqScanFilter (env.buildValue (.binaryExpr operator left right)))
termination_by 2 * (sizeOf left + sizeOf right) + 1

end

/-- `Selection.filter` (selection.ts:120-127): the JS null-ish check
`if (!filter) return this` is modelled by the `Option`; a present
predicate is null-stripped by the external `trimNullish` and handed to
`buildFilter` unconditionally. -/
def filter (env : Env) (predicate : Option Ast) : Except Err Plan :=
  match predicate with
  | none => .ok .self
  | some f =>
    let f := env.trimNullish f
    buildFilter env f

end Selection

/-- Decimal digit string of a nonnegative JS number, big-endian, as
produced by JS string concatenation `'column' + cid` / `'s' + selCnt`:
repeated division by ten.  The recursion is on a fuel argument because
Lean needs a structural measure; calling it with fuel `n` is exact
since `n / 10 < n` (see `strVal_natDecAux`). -/
def natDecAux : Nat → Nat → List Char
  | _, 0 => []
  | n, fuel + 1 =>
    if n = 0 then [] else natDecAux (n / 10) fuel ++ [Nat.digitChar (n % 10)]

/-- Decimal rendering of a nonnegative JS number (`String(n)`). -/
def natRepr (n : Nat) : String :=
  ⟨if n = 0 then ['0'] else natDecAux n n⟩

/-- The synthesized output key `'column' + cid` of `enumerate`. -/
def mkColumnName (n : Nat) : String := "column" ++ natRepr n

/-- The state a constructed `Selection` holds about itself: its alias
`selPrefix` (called `selPfx` here) and its ordered `columns`. -/
structure SelectionModel where
  selPfx : String
  columns : List IValue

namespace Selection

/-- The `do { nm = 'column' + (cid++); } while (ids.has(nm))` loop of
`enumerate` (selection.ts:90-92), returning the accepted counter value
(the JS loop leaves `cid` at the result plus one).  The JS loop is
unbounded; it terminates because `ids` is finite, and running it with
fuel `ids.length + 1` is exact (`synthLoop_spec` below). -/
def synthLoop (ids : List String) (cid : Nat) : Nat → Nat
  | 0 => cid
  | fuel + 1 =>
    if mkColumnName cid ∈ ids then synthLoop ids (cid + 1) fuel else cid

/-- The `columnIds` computation of `enumerate` (selection.ts:82-94):
per column its `id` when JS-truthy (non-empty), else the next
synthesized name, threading the shared counter `cid` across columns;
`ids` is the set of all column ids. -/
def columnIdsAux (ids : List String) : List String → Nat → List String
  | [], _ => []
  | x :: rest, cid =>
    if x ≠ "" then x :: columnIdsAux ids rest cid
    else
      let n := synthLoop ids cid (ids.length + 1)
      mkColumnName n :: columnIdsAux ids rest (n + 1)

/-- The output keys of `enumerate` for a column list. -/
def computeColumnIds (columns : List IValue) : List String :=
  let ids := columns.map IValue.id
  columnIdsAux ids ids 0

/-- `Selection.enumerate` (selection.ts:81-104) over a given upstream
row list: for each upstream row build a fresh object, set its identity
to `selPrefix + getId(item)`, and store `col.get(item) ?? null` under
each column's output key. -/
def enumerate (sel : SelectionModel) (baseRows : List Row) : List Row :=
  let columnIds := computeColumnIds (SelectionModel.columns sel)
  baseRows.map (fun item =>
    { rowId := SelectionModel.selPfx sel ++ Row.rowId item
      fields := (columnIds.zip (SelectionModel.columns sel)).map
        (fun p => (p.1, IValue.get p.2 (some item))) })

/-- A tower of nested Selections, outermost first, enumerated over a
source row list (each layer's `enumerate` pulls from the next). -/
def enumerateNested (layers : List SelectionModel) (src : List Row) : List Row :=
  match layers with
  | [] => src
  | outer :: rest => enumerate outer (enumerateNested rest src)

/-- The concatenation of the alias prefixes of a tower of Selections,
outermost first. -/
def layersPfx (layers : List SelectionModel) : String :=
  (layers.map SelectionModel.selPfx).foldr (fun a b => a ++ b) ""

end Selection

/-- Modelled from the spec: the Always-False Filter Node
(`filters/false-filter.ts`, not under `src/`).  Per spec §4.2/§4.3 its
`enumerate()` produces nothing, for any upstream content. -/
def falseFilterEnumerate (_upstream : List Row) : List Row := []

/-- Modelled from the spec: `hasItem` of the Always-False Filter Node
is false for every row. -/
def falseFilterHasItem (_x : Row) : Bool := false

/-- One entry of an explicit projection list: `{expr, as?}`. -/
structure ColSpec where
  expr : Ast
  as : Option String
  deriving DecidableEq, Repr

/-- One field of a full schema (`Schema.fields` of `interfaces.ts`):
its id and type. -/
structure FieldDef where
  id : String
  type : DataType
  deriving DecidableEq, Repr

/-- The `what` argument of the `Selection` constructor: an explicit
column list or a full schema. -/
inductive SelWhat where
  | list (cols : List ColSpec)
  | schema (fields : List FieldDef)

/-- The argument of `buildSelection` / `Selection.select`: the `'*'`
sentinel or an explicit column list. -/
inductive SelectArg where
  | star
  | list (cols : List ColSpec)

namespace Selection

/-- The `Selection` constructor (selection.ts:41-71), with the
process-wide counter `selCnt` threaded explicitly.  Explicit-list mode
compiles each `{expr, as}` (rejecting an empty list with QueryError),
rebinds aliases via `setId`, and mints `selPrefix = 's' + selCnt++`.
Full-schema mode keeps an empty `selPrefix` and builds one field-reading
value per schema field; the `Evaluator` class it instantiates lives in
`valuetypes.ts` (not under `src/`) and is modelled from the spec §4.1 as
plain identity extraction `raw => raw[col.id]`, neither constant nor
indexed. -/
def mkSelection (env : Env) (what : SelWhat) (selCnt : Nat) :
    Except Err (SelectionModel × Nat) :=
  match what with
  | .list cols =>
    if cols.length = 0 then .error (.queryError "Invalid selection")
    else
      .ok ({ selPfx := "s" ++ natRepr selCnt
             columns := cols.map (fun s =>
               let col := env.buildValue s.expr
               match s.as with
               | some a => IValue.setId col a
               | none => col) }, selCnt + 1)
  | .schema fields =>
    .ok ({ selPfx := ""
           columns := fields.map (fun f =>
             { id := f.id
               type := f.type
               isConstant := false
               index := none
               get := fun raw =>
                 match raw with
                 | some r => rowGet r f.id
                 | none => none }) }, selCnt)

end Selection

/-- A base relation as seen through `_ISelectionSource`: its rows, its
`hasItem` membership test and its `entropy` estimate. -/
structure BaseRel where
  rows : List Row
  hasItemFn : Row → Bool
  entropyVal : Nat

/-- A relation: a base source or a `Selection` wrapped around one. -/
inductive RelModel where
  | base (b : BaseRel)
  | selection (src : RelModel) (sel : SelectionModel)

/-- `get entropy()` (selection.ts:29-31): a `Selection` returns its
base's entropy unchanged. -/
def RelModel.entropy : RelModel → Nat
  | .base b => b.entropyVal
  | .selection src _ => RelModel.entropy src

/-- `hasItem` (selection.ts:33-35): a `Selection` delegates membership
to its base relation. -/
def RelModel.hasItem : RelModel → Row → Bool
  | .base b, v => b.hasItemFn v
  | .selection src _, v => RelModel.hasItem src v

namespace Selection

/-- `buildSelection` (selection.ts:16-21): the `'*'` sentinel returns
the base relation itself (no constructor runs, the counter is
untouched); a column list constructs a new `Selection` over it. -/
def buildSelection (env : Env) (base : RelModel) (select : SelectArg)
    (selCnt : Nat) : Except Err (RelModel × Nat) :=
  match select with
  | .star => .ok (base, selCnt)
  | .list cols =>
    match mkSelection env (.list cols) selCnt with
    | .error e => .error e
    | .ok (sel, cnt) => .ok (.selection base sel, cnt)

/-- `Selection.select` (selection.ts:116-118): delegates to
`buildSelection` with itself as the base. -/
def select (env : Env) (self : RelModel) (arg : SelectArg) (selCnt : Nat) :
    Except Err (RelModel × Nat) :=
  buildSelection env self arg selCnt

end Selection

/-- The output-key synthesis contract, spec §4.1/§8: explicit (non
empty) ids pass through; an empty id receives `column N` for the least
`N` whose name collides neither with any column id (`ids`) nor with a
previously synthesized key (`prev`), threading the synthesized keys
through `prev`. -/
inductive SynthSpec (ids : List String) :
    List String → List String → List String → Prop where
  | nil (prev : List String) : SynthSpec ids prev [] []
  | explicitCol {prev cols keys : List String} {x : String} :
      x ≠ "" → SynthSpec ids prev cols keys →
      SynthSpec ids prev (x :: cols) (x :: keys)
  | synthCol {prev cols keys : List String} {n : Nat} :
      mkColumnName n ∉ ids → mkColumnName n ∉ prev →
      (∀ m < n, mkColumnName m ∈ ids ∨ mkColumnName m ∈ prev) →
      SynthSpec ids (prev ++ [mkColumnName n]) cols keys →
      SynthSpec ids prev ("" :: cols) (mkColumnName n :: keys)

/-! ### Arithmetic helpers for decimal renderings -/

/-- The numeric value of a decimal digit character (`'0'.toNat = 48`). -/
def digitVal (c : Char) : Nat := c.toNat - 48

/-- The number denoted by a big-endian decimal digit string; a left
inverse of `natDecAux` used to prove renderings injective. -/
def strVal (l : List Char) : Nat :=
  l.foldl (fun acc c => 10 * acc + digitVal c) 0

/-! ### Concrete fixtures for counterexamples and witnesses -/

/-- An example environment: the value compiler and `trimNullish` are
the knobs; the remaining external constructors are fixed simple
total functions. -/
def mkEnv (bv : Ast → IValue) (trim : Ast → Ast) : Env :=
  { buildValue := bv
    convert := fun v _ => v
    trimNullish := trim
    valueBool := fun b =>
      { id := "", type := .bool, isConstant := true, index := none
        get := fun _ => some (.vBool b) }
    valueIsNull := fun v _ => v
    valueIn := fun v _ _ => v }

/-- A compiled value backed by a single-key boolean index. -/
def idxBoolVal : IValue :=
  { id := "L", type := .bool, isConstant := false
    index := some { expressions := [{ type := DataType.bool }] }
    get := fun _ => none }

/-- A compiled value backed by a single-key integer index. -/
def idxIntVal : IValue :=
  { id := "L", type := .int, isConstant := false
    index := some { expressions := [{ type := DataType.int }] }
    get := fun _ => none }

/-- A compiled value backed by a two-key index. -/
def idxTwoVal : IValue :=
  { id := "L", type := .bool, isConstant := false
    index := some { expressions := [{ type := DataType.bool }, { type := DataType.bool }] }
    get := fun _ => none }

/-- A constant compiled value (an integer literal). -/
def constIntVal : IValue :=
  { id := "R", type := .int, isConstant := true, index := none
    get := fun _ => some (.vInt 1) }

/-- A constant compiled boolean value. -/
def constBoolVal (b : Bool) : IValue :=
  { id := "", type := .bool, isConstant := true, index := none
    get := fun _ => some (.vBool b) }

/-- A non-constant, non-indexed compiled value. -/
def plainVal : IValue :=
  { id := "", type := .bool, isConstant := false, index := none
    get := fun _ => none }

/-- A constant compiled array value. -/
def arrayConstVal : IValue :=
  { id := "", type := .array .int, isConstant := true, index := none
    get := fun _ => none }

/-- Environment whose compiler sees an indexed left operand `L` and a
constant right operand `R`; whole binary expressions compile to a plain
(non-constant, non-indexed) value. -/
def envCmp : Env :=
  mkEnv (fun a =>
    match a with
    | .other "L" => idxBoolVal
    | .other "R" => constIntVal
    | _ => plainVal) (fun a => a)

/-- Environment whose compiler sees an indexed left operand `L` and a
constant array right operand `R`. -/
def envIn : Env :=
  mkEnv (fun a =>
    match a with
    | .other "L" => idxBoolVal
    | .other "R" => arrayConstVal
    | _ => plainVal) (fun a => a)

/-- Environment where every expression compiles to a constant true. -/
def envConstTrue : Env := mkEnv (fun _ => constBoolVal true) (fun a => a)

/-- Environment where every expression compiles to a constant false. -/
def envConstFalse : Env := mkEnv (fun _ => constBoolVal false) (fun a => a)

/-- Environment where every expression compiles to a value carrying a
two-key index. -/
def envIdxTwo : Env := mkEnv (fun _ => idxTwoVal) (fun a => a)

/-- Environment where every expression compiles to a value carrying a
single-key integer (non-boolean) index. -/
def envIdxInt : Env := mkEnv (fun _ => idxIntVal) (fun a => a)

/-- Environment where every expression compiles to a value carrying a
single-key boolean index. -/
def envIdxBool : Env := mkEnv (fun _ => idxBoolVal) (fun a => a)

/-- Environment whose null-stripping reduces every predicate to a bare
tagless node (a predicate that "reduces to nothing"). -/
def envStrip : Env := mkEnv (fun _ => plainVal) (fun _ => Ast.other "")

/-- A one-entry projection list. -/
def exCols : List ColSpec := [{ expr := Ast.other "c", as := none }]

/-- Two example source rows with distinct identities. -/
def exRows : List Row := [{ rowId := "r1", fields := [] }, { rowId := "r2", fields := [] }]

/-- A named example column (non-constant, non-indexed, evaluating to
nothing); `namedCol ""` is a column with an empty id. -/
def namedCol (s : String) : IValue :=
  { id := s, type := .text, isConstant := false, index := none, get := fun _ => none }

/-- Columns with ids `["a", "", ""]`, the spec §8 example. -/
def exCols3 : List IValue := [namedCol "a", namedCol "", namedCol ""]

/-- Two example Selection layers with explicit-list style prefixes. -/
def exLayers : List SelectionModel :=
  [{ selPfx := "s1", columns := [] }, { selPfx := "s0", columns := [] }]

/-! ## Helper lemmas -/

theorem string_ext {a b : String} (h : a.data = b.data) : a = b := by
  cases a; cases b; exact congrArg String.mk h

theorem string_append_assoc (a b c : String) : a ++ b ++ c = a ++ (b ++ c) := by
  apply string_ext
  simp [String.data_append]

theorem string_empty_append (s : String) : "" ++ s = s := by
  apply string_ext
  simp [String.data_append]

theorem string_append_cancel_left {p a b : String} (h : p ++ a = p ++ b) : a = b := by
  apply string_ext
  have h2 : (p ++ a).data = (p ++ b).data := by rw [h]
  rw [String.data_append, String.data_append] at h2
  exact List.append_cancel_left h2

theorem digitVal_digitChar {m : Nat} (h : m < 10) :
    digitVal (Nat.digitChar m) = m := by
  interval_cases m <;> rfl

theorem strVal_append (l : List Char) (c : Char) :
    strVal (l ++ [c]) = 10 * strVal l + digitVal c := by
  simp [strVal, List.foldl_append]

theorem strVal_natDecAux : ∀ fuel n, n ≤ fuel → strVal (natDecAux n fuel) = n := by
  intro fuel
  induction fuel with
  | zero =>
    intro n hn
    have h0 : n = 0 := Nat.le_zero.mp hn
    subst h0
    rfl
  | succ fuel ih =>
    intro n hn
    by_cases h0 : n = 0
    · subst h0
      simp [natDecAux, strVal]
    · have hdiv : n / 10 ≤ fuel := by
        have := Nat.div_lt_self (Nat.pos_of_ne_zero h0) (by norm_num : 1 < 10)
        omega
      rw [show natDecAux n (fuel + 1)
            = natDecAux (n / 10) fuel ++ [Nat.digitChar (n % 10)] by
          simp [natDecAux, h0]]
      rw [strVal_append, ih _ hdiv, digitVal_digitChar (Nat.mod_lt n (by norm_num))]
      omega

theorem natRepr_strVal (n : Nat) : strVal (natRepr n).data = n := by
  show strVal (if n = 0 then ['0'] else natDecAux n n) = n
  by_cases h : n = 0
  · subst h; rfl
  · rw [if_neg h]
    exact strVal_natDecAux n n (le_refl n)

theorem natRepr_inj {a b : Nat} (h : natRepr a = natRepr b) : a = b := by
  have ha := natRepr_strVal a
  rw [h, natRepr_strVal b] at ha
  omega

theorem append_natRepr_inj {p : String} {a b : Nat}
    (h : p ++ natRepr a = p ++ natRepr b) : a = b :=
  natRepr_inj (string_append_cancel_left h)

theorem mkColumnName_inj {a b : Nat} (h : mkColumnName a = mkColumnName b) :
    a = b :=
  append_natRepr_inj h

/-- Among `ids.length + 1` consecutive candidate names at least one is
free: the candidates are pairwise distinct, so they cannot all be
members of `ids`. -/
theorem exists_free_columnName (ids : List String) (cid : Nat) :
    ∃ k, k < ids.length + 1 ∧ mkColumnName (cid + k) ∉ ids := by
  by_contra hall
  push_neg at hall
  have hinj : Function.Injective (fun k : Nat => mkColumnName (cid + k)) := by
    intro a b hab
    have := mkColumnName_inj hab
    omega
  have hnodup :
      ((List.range (ids.length + 1)).map
        (fun k => mkColumnName (cid + k))).Nodup :=
    (List.nodup_range _).map hinj
  have hsub :
      ((List.range (ids.length + 1)).map
        (fun k => mkColumnName (cid + k))) ⊆ ids := by
    intro x hx
    rcases List.mem_map.mp hx with ⟨k, hk, rfl⟩
    exact hall k (List.mem_range.mp hk)
  have := (List.subperm_of_subset hnodup hsub).length_le
  simp [List.length_map, List.length_range] at this

/-- Behaviour of the synthesis loop when a free name exists within the
fuel bound: the result is at least the starting counter, its name is
free, and every skipped counter value had a colliding name. -/
theorem synthLoop_spec (ids : List String) :
    ∀ fuel cid, (∃ k, k < fuel ∧ mkColumnName (cid + k) ∉ ids) →
      cid ≤ Selection.synthLoop ids cid fuel ∧
      mkColumnName (Selection.synthLoop ids cid fuel) ∉ ids ∧
      (∀ m, cid ≤ m → m < Selection.synthLoop ids cid fuel →
        mkColumnName m ∈ ids) := by
  intro fuel
  induction fuel with
  | zero =>
    rintro cid ⟨k, hk, _⟩
    omega
  | succ fuel ih =>
    rintro cid ⟨k, hk, hfree⟩
    by_cases hin : mkColumnName cid ∈ ids
    · have hk0 : k ≠ 0 := by
        rintro rfl
        exact hfree hin
      obtain ⟨k', rfl⟩ : ∃ k', k = k' + 1 := ⟨k - 1, by omega⟩
      have hex : ∃ j, j < fuel ∧ mkColumnName (cid + 1 + j) ∉ ids :=
        ⟨k', by omega, by rwa [show cid + 1 + k' = cid + (k' + 1) by omega]⟩
      obtain ⟨h1, h2, h3⟩ := ih (cid + 1) hex
      have hstep : Selection.synthLoop ids cid (fuel + 1)
          = Selection.synthLoop ids (cid + 1) fuel := by
        simp [Selection.synthLoop, hin]
      rw [hstep]
      refine ⟨by omega, h2, fun m hm1 hm2 => ?_⟩
      rcases Nat.eq_or_lt_of_le hm1 with h | hlt
      · rw [← h]; exact hin
      · exact h3 m hlt hm2
    · have hstep : Selection.synthLoop ids cid (fuel + 1) = cid := by
        simp [Selection.synthLoop, hin]
      rw [hstep]
      exact ⟨le_refl _, hin, fun m hm1 hm2 => absurd hm2 (by omega)⟩

/-- The synthesized-key computation of `enumerate` satisfies the
spec-side synthesis contract, under the invariant that every counter
value already passed is accounted for by a column id or an earlier
synthesized key. -/
theorem columnIdsAux_spec (ids : List String) :
    ∀ (cols : List String) (cid : Nat) (prev : List String),
      (∀ m, m < cid → mkColumnName m ∈ ids ∨ mkColumnName m ∈ prev) →
      (∀ k ∈ prev, ∃ K, K < cid ∧ k = mkColumnName K) →
      SynthSpec ids prev cols (Selection.columnIdsAux ids cols cid) := by
  intro cols
  induction cols with
  | nil =>
    intro cid prev _ _
    exact SynthSpec.nil prev
  | cons x rest ih =>
    intro cid prev hinv hprev
    by_cases hx : x = ""
    · subst hx
      have hstep : Selection.columnIdsAux ids ("" :: rest) cid
          = mkColumnName (Selection.synthLoop ids cid (ids.length + 1))
            :: Selection.columnIdsAux ids rest
                (Selection.synthLoop ids cid (ids.length + 1) + 1) := by
        simp [Selection.columnIdsAux]
      rw [hstep]
      obtain ⟨hle, hfree, hmin⟩ :=
        synthLoop_spec ids (ids.length + 1) cid (exists_free_columnName ids cid)
      set n := Selection.synthLoop ids cid (ids.length + 1) with hn
      have hnotprev : mkColumnName n ∉ prev := by
        intro hmem
        obtain ⟨K, hK, hKe⟩ := hprev _ hmem
        have := mkColumnName_inj hKe
        omega
      have hleast : ∀ m < n, mkColumnName m ∈ ids ∨ mkColumnName m ∈ prev := by
        intro m hm
        by_cases hmc : m < cid
        · exact hinv m hmc
        · exact Or.inl (hmin m (by omega) hm)
      refine SynthSpec.synthCol hfree hnotprev hleast
        (ih (n + 1) (prev ++ [mkColumnName n]) ?_ ?_)
      · intro m hm
        by_cases hmc : m < cid
        · rcases hinv m hmc with h | h
          · exact Or.inl h
          · exact Or.inr (List.mem_append_left _ h)
        · by_cases hmn : m < n
          · exact Or.inl (hmin m (by omega) hmn)
          · have hmeq : m = n := by omega
            subst hmeq
            exact Or.inr (List.mem_append_right _ (List.mem_singleton_self _))
      · intro k hk
        rcases List.mem_append.mp hk with h | h
        · obtain ⟨K, hK, hKe⟩ := hprev k h
          exact ⟨K, by omega, hKe⟩
        · exact ⟨n, by omega, List.mem_singleton.mp h⟩
    · have hstep : Selection.columnIdsAux ids (x :: rest) cid
          = x :: Selection.columnIdsAux ids rest cid := by
        simp [Selection.columnIdsAux, hx]
      rw [hstep]
      exact SynthSpec.explicitCol hx (ih cid prev hinv hprev)

/-- Facts extracted from a synthesis derivation: lengths agree,
explicit ids pass through, and every synthesized key avoids all column
ids, all keys accumulated in `prev`, and every other key of the
output. -/
theorem synthSpec_facts {ids : List String} :
    ∀ {prev cols keys : List String}, SynthSpec ids prev cols keys →
      (∀ x ∈ cols, x ∈ ids) →
      keys.length = cols.length ∧
      (∀ j, j < cols.length → cols.getD j "" ≠ "" →
        keys.getD j "" = cols.getD j "") ∧
      (∀ j, j < cols.length → cols.getD j "" = "" →
        keys.getD j "" ∉ ids ∧ keys.getD j "" ∉ prev ∧
        ∀ i, i < j → keys.getD i "" ≠ keys.getD j "") := by
  intro prev cols keys h
  induction h with
  | nil prev =>
    intro _
    refine ⟨rfl, ?_, ?_⟩ <;> · intro j hj; simp at hj
  | explicitCol hx _ ih =>
    intro hsub
    have hsub' : ∀ y ∈ _, y ∈ ids := fun y hy => hsub y (List.mem_cons_of_mem _ hy)
    obtain ⟨ihlen, ihpass, ihsynth⟩ := ih hsub'
    refine ⟨by simpa using ihlen, ?_, ?_⟩
    · intro j hj hne
      cases j with
      | zero => rfl
      | succ j' =>
        simp only [List.getD_cons_succ] at hne ⊢
        exact ihpass j' (by simpa using hj) hne
    · intro j hj he
      cases j with
      | zero => simp only [List.getD_cons_zero] at he; exact absurd he hx
      | succ j' =>
        simp only [List.getD_cons_succ] at he ⊢
        obtain ⟨h1, h2, h3⟩ := ihsynth j' (by simpa using hj) he
        refine ⟨h1, h2, ?_⟩
        intro i hi
        cases i with
        | zero =>
          simp only [List.getD_cons_zero]
          intro hcontra
          exact h1 (hcontra ▸ hsub _ (List.mem_cons_self _ _))
        | succ i' =>
          simp only [List.getD_cons_succ]
          exact h3 i' (by omega)
  | synthCol hni hnp hleast2 _ ih =>
    intro hsub
    have hsub' : ∀ y ∈ _, y ∈ ids := fun y hy => hsub y (List.mem_cons_of_mem _ hy)
    obtain ⟨ihlen, ihpass, ihsynth⟩ := ih hsub'
    refine ⟨by simpa using ihlen, ?_, ?_⟩
    · intro j hj hne
      cases j with
      | zero => simp only [List.getD_cons_zero] at hne; exact absurd rfl hne
      | succ j' =>
        simp only [List.getD_cons_succ] at hne ⊢
        exact ihpass j' (by simpa using hj) hne
    · intro j hj he
      cases j with
      | zero =>
        refine ⟨hni, hnp, ?_⟩
        intro i hi
        omega
      | succ j' =>
        simp only [List.getD_cons_succ] at he ⊢
        obtain ⟨h1, h2, h3⟩ := ihsynth j' (by simpa using hj) he
        refine ⟨h1, fun hmem => h2 (List.mem_append_left _ hmem), ?_⟩
        intro i hi
        cases i with
        | zero =>
          simp only [List.getD_cons_zero]
          intro hcontra
          exact h2 (hcontra ▸ List.mem_append_right _ (List.mem_singleton_self _))
        | succ i' =>
          simp only [List.getD_cons_succ]
          exact h3 i' (by omega)

theorem columnIdsAux_length (ids : List String) :
    ∀ cols cid, (Selection.columnIdsAux ids cols cid).length = cols.length := by
  intro cols
  induction cols with
  | nil => intro cid; rfl
  | cons x rest ih =>
    intro cid
    by_cases hx : x = "" <;> simp [Selection.columnIdsAux, hx, ih]

theorem computeColumnIds_length (columns : List IValue) :
    (Selection.computeColumnIds columns).length = columns.length := by
  simp [Selection.computeColumnIds, columnIdsAux_length]

/-- The identities produced by one `enumerate` layer: its own alias
prefix prepended to each upstream identity. -/
theorem enumerate_map_rowId (sel : SelectionModel) (rows : List Row) :
    (Selection.enumerate sel rows).map Row.rowId =
      rows.map (fun r => SelectionModel.selPfx sel ++ Row.rowId r) := by
  simp [Selection.enumerate, List.map_map, Function.comp]

/-- Every row produced by `enumerate` carries exactly the computed
output keys, in column order. -/
theorem enumerate_fields_keys (sel : SelectionModel) (rows : List Row)
    (r : Row) (hr : r ∈ Selection.enumerate sel rows) :
    r.fields.map Prod.fst =
      Selection.computeColumnIds (SelectionModel.columns sel) := by
  simp only [Selection.enumerate, List.mem_map] at hr
  obtain ⟨item, _, rfl⟩ := hr
  simp only [List.map_map]
  have hmfst :
      ((Selection.computeColumnIds (SelectionModel.columns sel)).zip
        (SelectionModel.columns sel)).map Prod.fst =
      Selection.computeColumnIds (SelectionModel.columns sel) :=
    List.map_fst_zip _ _ (le_of_eq (computeColumnIds_length _))
  calc ((Selection.computeColumnIds (SelectionModel.columns sel)).zip
          (SelectionModel.columns sel)).map
            (Prod.fst ∘ fun p => (p.1, IValue.get p.2 (some item)))
      = ((Selection.computeColumnIds (SelectionModel.columns sel)).zip
          (SelectionModel.columns sel)).map Prod.fst := by
        apply List.map_congr_left
        intro p _
        rfl
    _ = Selection.computeColumnIds (SelectionModel.columns sel) := hmfst

/-- Identities across a whole tower of nested Selections: the
concatenated prefixes followed by the source identity. -/
theorem enumerateNested_map_rowId (layers : List SelectionModel)
    (src : List Row) :
    (Selection.enumerateNested layers src).map Row.rowId =
      src.map (fun r => Selection.layersPfx layers ++ Row.rowId r) := by
  induction layers with
  | nil =>
    show src.map Row.rowId = src.map (fun r => "" ++ Row.rowId r)
    simp [string_empty_append]
  | cons o rest ih =>
    show (Selection.enumerate o (Selection.enumerateNested rest src)).map Row.rowId = _
    rw [enumerate_map_rowId]
    have hcomp : (Selection.enumerateNested rest src).map
        (fun r => SelectionModel.selPfx o ++ Row.rowId r)
        = ((Selection.enumerateNested rest src).map Row.rowId).map
            (fun s => SelectionModel.selPfx o ++ s) := by
      simp [List.map_map, Function.comp]
    rw [hcomp, ih]
    simp only [List.map_map]
    apply List.map_congr_left
    intro r _
    show SelectionModel.selPfx o ++ (Selection.layersPfx rest ++ Row.rowId r)
        = Selection.layersPfx (o :: rest) ++ Row.rowId r
    rw [show Selection.layersPfx (o :: rest)
          = SelectionModel.selPfx o ++ Selection.layersPfx rest from rfl]
    rw [string_append_assoc]

/-! ## Claim theorems -/

/-- Claim C7: selecting with the `'*'` sentinel returns the base
relation itself — the identical object, no new Selection wrapper, no
new column list, and the selection counter untouched (no new identity
space minted); `Selection.select` behaves identically since it
delegates to `buildSelection`. -/
theorem select_star_returns_base (env : Env) (base : RelModel) (cnt : Nat) :
    Selection.buildSelection env base SelectArg.star cnt = .ok (base, cnt) ∧
    Selection.select env base SelectArg.star cnt = .ok (base, cnt) :=
  ⟨rfl, rfl⟩

/-- Claim C10: a Selection's `hasItem` returns exactly what the
wrapped base relation's `hasItem` returns and its `entropy` equals the
base's entropy; membership is therefore answered against the base
relation, independently of the projection itself (columns and alias
prefix play no role). -/
theorem selection_membership_delegates (src : RelModel)
    (sel sel' : SelectionModel) (v : Row) :
    RelModel.hasItem (RelModel.selection src sel) v = RelModel.hasItem src v ∧
    RelModel.entropy (RelModel.selection src sel) = RelModel.entropy src ∧
    RelModel.hasItem (RelModel.selection src sel) v
      = RelModel.hasItem (RelModel.selection src sel') v :=
  ⟨rfl, rfl, rfl⟩

/-- Claim C5 (amended): `filter` returns the selection unchanged
exactly when the predicate is absent (JS null-ish); a present
predicate is always null-stripped and handed to `buildFilter`, even
when stripping reduces it to nothing. -/
theorem filter_self_only_when_absent (env : Env) (p : Option Ast) :
    (p = none → Selection.filter env p = .ok .self) ∧
    (∀ f, p = some f →
      Selection.filter env p = Selection.buildFilter env (env.trimNullish f)) := by
  constructor
  · rintro rfl; rfl
  · rintro f rfl; rfl

/-- Claim C5, witness for the amended claim at concrete inputs. -/
theorem filter_self_only_when_absent_witness :
    Selection.filter envCmp none = .ok .self ∧
    Selection.filter envStrip (some (Ast.other "t"))
      = Selection.buildFilter envStrip (Env.trimNullish envStrip (Ast.other "t")) :=
  ⟨(filter_self_only_when_absent envCmp none).1 rfl,
   (filter_self_only_when_absent envStrip (some (Ast.other "t"))).2 _ rfl⟩

/-- Claim C5, counterexample to the claim as stated: a predicate that
reduces to nothing after null-stripping (here: stripped to a bare
tagless node) is not returned as the selection unchanged — the
stripped result still flows into `buildFilter`, which rejects it with
NotSupported. -/
theorem filter_stripped_predicate_not_self :
    Selection.filter envStrip (some (Ast.binaryExpr "=" (.other "a") (.other "b")))
      = .error (.notSupported "condition ") ∧
    Selection.filter envStrip (some (Ast.binaryExpr "=" (.other "a") (.other "b")))
      ≠ .ok .self := by
  have h : Selection.filter envStrip
      (some (Ast.binaryExpr "=" (.other "a") (.other "b")))
      = .error (.notSupported "condition ") := by
    simp [Selection.filter, Selection.buildFilter, envStrip, mkEnv, plainVal,
      Ast.typeTag]
  exact ⟨h, by rw [h]; simp⟩

/-- Claim C2: a compiled predicate that is constant and carries no
index is evaluated once against a null row context, coerced to
boolean: when true `buildFilter` returns the selection itself
unchanged, when false it returns the Always-False node, whose
`enumerate` yields zero rows and whose `hasItem` is false for every
row, for any upstream content. -/
theorem constant_filter_folds (env : Env) (f : Ast)
    (hidx : (env.buildValue f).index = none)
    (hconst : (env.buildValue f).isConstant = true) :
    (truthy ((env.convert (env.buildValue f) DataType.bool).get none) = true →
      Selection.buildFilter env f = .ok .self) ∧
    (truthy ((env.convert (env.buildValue f) DataType.bool).get none) = false →
      Selection.buildFilter env f = .ok .falseFilter) ∧
    (∀ upstream, falseFilterEnumerate upstream = []) ∧
    (∀ x, falseFilterHasItem x = false) := by
  refine ⟨?_, ?_, fun _ => rfl, fun _ => rfl⟩
  · intro htrue
    rw [Selection.buildFilter.eq_def]
    simp only [hidx]
    simp [hconst, htrue]
  · intro hfalse
    rw [Selection.buildFilter.eq_def]
    simp only [hidx]
    simp [hconst, hfalse]

/-- Claim C2, witness: a constant-true predicate returns the selection
unchanged; a constant-false one returns the Always-False node. -/
theorem constant_filter_folds_witness :
    Selection.buildFilter envConstTrue (Ast.other "c") = .ok .self ∧
    Selection.buildFilter envConstFalse (Ast.other "c") = .ok .falseFilter :=
  ⟨(constant_filter_folds envConstTrue (Ast.other "c") rfl rfl).1 rfl,
   (constant_filter_folds envConstFalse (Ast.other "c") rfl rfl).2.1 rfl⟩

/-- Claim C3: when the compiled predicate carries index metadata,
`buildFilter` fails with the internal-invariant error unless the index
has exactly one key expression, fails with a CastError unless that key
expression's type is boolean, and otherwise returns an equality node
matching the indexed value against the literal `true`. -/
theorem indexed_filter_boolean_shortcut (env : Env) (f : Ast) (idx : IndexDef)
    (h : (env.buildValue f).index = some idx) :
    (idx.expressions.length ≠ 1 →
      Selection.buildFilter env f
        = .error (.internalError "Was not expecing multiples expressions filter")) ∧
    (∀ e, idx.expressions = [e] →
      (e.type ≠ DataType.bool →
        Selection.buildFilter env f = .error (.castError e.type DataType.bool)) ∧
      (e.type = DataType.bool →
        Selection.buildFilter env f
          = .ok (.eqFilter (env.buildValue f) [env.valueBool true]))) := by
  constructor
  · intro hlen
    rcases hl : idx.expressions with _ | ⟨e, _ | ⟨e2, rest⟩⟩
    · rw [Selection.buildFilter.eq_def]
      simp only [h, hl]
    · exact absurd (by rw [hl]; rfl) hlen
    · rw [Selection.buildFilter.eq_def]
      simp only [h, hl]
  · intro e he
    constructor
    · intro ht
      rw [Selection.buildFilter.eq_def]
      simp only [h, he]
      simp [ht]
    · intro ht
      rw [Selection.buildFilter.eq_def]
      simp only [h, he]
      simp [ht]

/-- Claim C3, witness: the three branches at concrete environments —
a two-key index, a single-key integer index, a single-key boolean
index. -/
theorem indexed_filter_boolean_shortcut_witness :
    Selection.buildFilter envIdxTwo (Ast.other "c")
      = .error (.internalError "Was not expecing multiples expressions filter") ∧
    Selection.buildFilter envIdxInt (Ast.other "c")
      = .error (.castError DataType.int DataType.bool) ∧
    Selection.buildFilter envIdxBool (Ast.other "c")
      = .ok (.eqFilter idxBoolVal [Env.valueBool envIdxBool true]) :=
  ⟨(indexed_filter_boolean_shortcut envIdxTwo (Ast.other "c")
      { expressions := [{ type := DataType.bool }, { type := DataType.bool }] }
      rfl).1 (by decide),
   ((indexed_filter_boolean_shortcut envIdxInt (Ast.other "c")
      { expressions := [{ type := DataType.int }] } rfl).2
      { type := DataType.int } rfl).1 (by decide),
   ((indexed_filter_boolean_shortcut envIdxBool (Ast.other "c")
      { expressions := [{ type := DataType.bool }] } rfl).2
      { type := DataType.bool } rfl).2 rfl⟩

/-- Claim C1 (code-bug evidence): with a single-key-indexed left
operand `L` and a constant right operand `R`, the code routes `L != R`
(and `L <> R`) to `buildBinaryFilter`'s default branch — a brute-force
`SeqScanFilter` — because the operator switch lists only
`'=','>','<','<=','>='`; the `'!='` / `'<>'` index branches inside
`buildComparison` are unreachable.  The same operands with `'='` do
receive the index-backed equality node. -/
theorem neq_index_falls_to_seqscan :
    Selection.buildFilter envCmp (Ast.binaryExpr "!=" (.other "L") (.other "R"))
      = .ok (.seqScanFilter plainVal) ∧
    Selection.buildFilter envCmp (Ast.binaryExpr "<>" (.other "L") (.other "R"))
      = .ok (.seqScanFilter plainVal) ∧
    Selection.buildFilter envCmp (Ast.binaryExpr "=" (.other "L") (.other "R"))
      = .ok (.eqFilter idxBoolVal [constIntVal]) := by
  refine ⟨?_, ?_, ?_⟩
  · simp [Selection.buildFilter, Selection.buildBinaryFilter, envCmp, mkEnv,
      plainVal, idxBoolVal, constIntVal, truthy]
  · simp [Selection.buildFilter, Selection.buildBinaryFilter, envCmp, mkEnv,
      plainVal, idxBoolVal, constIntVal, truthy]
  · simp [Selection.buildFilter, Selection.buildBinaryFilter,
      Selection.buildComparison, envCmp, mkEnv, plainVal, idxBoolVal,
      constIntVal, truthy]

/-- Claim C4: for `IN` / `NOT IN`, `buildBinaryFilter` compiles the
left operand, coerces the compiled right operand to an array of the
left value's type, and produces an index-backed membership /
non-membership node exactly when the coerced right side is constant
and the left value carries an index with exactly one key expression;
otherwise it produces a brute-force scan over the per-row membership
test. -/
theorem in_filter_index_eligibility (env : Env) (op : String) (l r : Ast)
    (hop : op = "IN" ∨ op = "NOT IN") :
    (((env.convert (env.buildValue r)
          (DataType.array (env.buildValue l).type)).isConstant &&
        Option.any (fun idx => idx.expressions.length == 1)
          (env.buildValue l).index) = true →
      Selection.buildBinaryFilter env op l r =
        .ok (if op = "IN"
          then .inFilter (env.buildValue l)
            (env.convert (env.buildValue r) (DataType.array (env.buildValue l).type))
          else .notInFilter (env.buildValue l)
            (env.convert (env.buildValue r) (DataType.array (env.buildValue l).type)))) ∧
    (((env.convert (env.buildValue r)
          (DataType.array (env.buildValue l).type)).isConstant &&
        Option.any (fun idx => idx.expressions.length == 1)
          (env.buildValue l).index) = false →
      Selection.buildBinaryFilter env op l r =
        .ok (.seqScanFilter (env.valueIn (env.buildValue l)
          (env.convert (env.buildValue r) (DataType.array (env.buildValue l).type))
          (op = "IN")))) := by
  rcases hop with rfl | rfl <;>
    exact ⟨fun hc => by
        rw [Selection.buildBinaryFilter.eq_def]
        simp [hc],
      fun hc => by
        rw [Selection.buildBinaryFilter.eq_def]
        simp [hc]⟩

/-- Claim C4, witness: an indexed left operand with a constant array
right side yields the membership node; non-eligible operands fall back
to the scan node. -/
theorem in_filter_index_eligibility_witness :
    Selection.buildBinaryFilter envIn "IN" (Ast.other "L") (Ast.other "R")
      = .ok (.inFilter idxBoolVal arrayConstVal) ∧
    Selection.buildBinaryFilter envCmp "NOT IN" (Ast.other "x") (Ast.other "y")
      = .ok (.seqScanFilter plainVal) :=
  ⟨(in_filter_index_eligibility envIn "IN" (Ast.other "L") (Ast.other "R")
      (Or.inl rfl)).1 (by decide),
   (in_filter_index_eligibility envCmp "NOT IN" (Ast.other "x") (Ast.other "y")
      (Or.inr rfl)).2 (by decide)⟩

/-- Claim C6: across any tower of nested Selections, each enumerated
row's identity is the concatenation of every layer's own alias prefix
(outermost first) with the innermost source row's identity, and rows
with distinct source identities keep distinct identities at every
nesting depth. -/
theorem nested_selection_identities (layers : List SelectionModel)
    (src : List Row) :
    ((Selection.enumerateNested layers src).map Row.rowId =
      src.map (fun r => Selection.layersPfx layers ++ Row.rowId r)) ∧
    ((src.map Row.rowId).Nodup →
      ((Selection.enumerateNested layers src).map Row.rowId).Nodup) := by
  refine ⟨enumerateNested_map_rowId layers src, ?_⟩
  intro h
  rw [enumerateNested_map_rowId]
  have hcomp : src.map (fun r => Selection.layersPfx layers ++ Row.rowId r)
      = (src.map Row.rowId).map (fun s => Selection.layersPfx layers ++ s) := by
    simp [List.map_map, Function.comp]
  rw [hcomp]
  exact h.map (fun a b hab => string_append_cancel_left hab)

/-- Claim C6, witness: two layers over two distinct source rows. -/
theorem nested_selection_identities_witness :
    ((Selection.enumerateNested exLayers exRows).map Row.rowId =
      exRows.map (fun r => Selection.layersPfx exLayers ++ Row.rowId r)) ∧
    ((Selection.enumerateNested exLayers exRows).map Row.rowId).Nodup :=
  ⟨(nested_selection_identities exLayers exRows).1,
   (nested_selection_identities exLayers exRows).2 (by decide)⟩

/-- Claim C8: output-key synthesis.  For columns with ids
`["a","",""]` the two empty-id columns are stored under `"column0"`
and `"column1"`; in general every enumerated row's field keys are the
computed output keys, the computation satisfies the synthesis contract
(each synthesized key is `column N` for the least `N` free of every
column id and of every earlier synthesized key), and a synthesized key
never collides with any other output key. -/
theorem column_key_synthesis :
    (Selection.computeColumnIds exCols3 = ["a", "column0", "column1"]) ∧
    (∀ sel rows r, r ∈ Selection.enumerate sel rows →
      r.fields.map Prod.fst
        = Selection.computeColumnIds (SelectionModel.columns sel)) ∧
    (∀ columns : List IValue,
      SynthSpec (columns.map IValue.id) [] (columns.map IValue.id)
        (Selection.computeColumnIds columns)) ∧
    (∀ columns : List IValue, ∀ i j, i < j → j < columns.length →
      (columns.map IValue.id).getD j "" = "" →
      (Selection.computeColumnIds columns).getD i ""
        ≠ (Selection.computeColumnIds columns).getD j "") := by
  have hgen : ∀ columns : List IValue,
      SynthSpec (columns.map IValue.id) [] (columns.map IValue.id)
        (Selection.computeColumnIds columns) := by
    intro columns
    exact columnIdsAux_spec _ _ 0 []
      (fun m hm => absurd hm (by omega))
      (fun k hk => absurd hk (List.not_mem_nil k))
  refine ⟨by decide, enumerate_fields_keys, hgen, ?_⟩
  intro columns i j hij hj hempty
  obtain ⟨hlen, hpass, hsynth⟩ :=
    synthSpec_facts (hgen columns) (fun x hx => hx)
  obtain ⟨h1, h2, h3⟩ := hsynth j (by simpa using hj) hempty
  exact h3 i hij

/-- Claim C8, witness: the collision-freedom part at the concrete
`["a","",""]` columns. -/
theorem column_key_synthesis_witness :
    (1 : Nat) < 2 ∧ (exCols3.map IValue.id).getD 2 "" = "" ∧
    (Selection.computeColumnIds exCols3).getD 1 ""
      ≠ (Selection.computeColumnIds exCols3).getD 2 "" :=
  ⟨by decide, by decide,
   column_key_synthesis.2.2.2 exCols3 1 2 (by decide) (by decide) (by decide)⟩

/-- Claim C9 (amended): plan construction is deterministic given the
counter state and its only effect is on that counter — an
explicit-list construction returns counter + 1 and mints the alias
prefix `'s' + counter`; the produced columns do not depend on the
counter; but constructions from different counter states mint distinct
prefixes (so two successive constructions of the same Selection are
observably different through the row identities `enumerate`
produces). -/
theorem selection_construction_pure_modulo_counter (env : Env)
    (cols : List ColSpec) (c1 c2 : Nat) (hne : cols ≠ []) :
    ((Selection.mkSelection env (.list cols) c1).map Prod.snd = .ok (c1 + 1)) ∧
    ((Selection.mkSelection env (.list cols) c1).map
        (fun p => SelectionModel.selPfx p.1) = .ok ("s" ++ natRepr c1)) ∧
    ((Selection.mkSelection env (.list cols) c1).map
        (fun p => SelectionModel.columns p.1)
      = (Selection.mkSelection env (.list cols) c2).map
        (fun p => SelectionModel.columns p.1)) ∧
    (c1 ≠ c2 → "s" ++ natRepr c1 ≠ "s" ++ natRepr c2) := by
  have hlen : ¬ cols.length = 0 := fun h => hne (List.length_eq_zero.mp h)
  refine ⟨?_, ?_, ?_, ?_⟩
  · simp [Selection.mkSelection, hlen, Except.map]
  · simp [Selection.mkSelection, hlen, Except.map]
  · simp [Selection.mkSelection, hlen, Except.map]
  · intro hne2 hcontra
    exact hne2 (append_natRepr_inj hcontra)

/-- Claim C9, witness for the amended claim at a concrete column list
and counter states 0 and 1. -/
theorem selection_construction_pure_modulo_counter_witness :
    ((Selection.mkSelection envCmp (.list exCols) 0).map Prod.snd = .ok 1) ∧
    ("s" ++ natRepr 0 ≠ "s" ++ natRepr 1) :=
  ⟨(selection_construction_pure_modulo_counter envCmp exCols 0 1
      (by decide)).1,
   (selection_construction_pure_modulo_counter envCmp exCols 0 1
      (by decide)).2.2.2 (by decide)⟩

/-- Claim C9, counterexample to the claim as stated: constructing the
same Selection twice over the same base with the same inputs gives
observably different plans — the process-wide counter advances, the
second construction mints a different alias prefix, and `enumerate`
therefore produces rows with different identities. -/
theorem selection_counter_observable :
    (Selection.mkSelection envCmp (.list exCols) 0).toOption.map
        (fun p => Selection.enumerate p.1 exRows)
      ≠ (Selection.mkSelection envCmp (.list exCols) 1).toOption.map
        (fun p => Selection.enumerate p.1 exRows) := by
  decide
